import Mathlib

/-
Verification of the BlockTerm repository.

Shallow embedding of:
  * the frontend block-segmentation parser
    (src/frontend/src/ui/hooks/useBlocks.ts and src/frontend/src/ui/lib/utils.ts),
  * the backend session manager
    (src/backend/internal/session/service.go, models.go).

Text is modelled as `List Char` (the streams in the claims are ASCII, so
JS UTF-16 strings and Go byte slices coincide with character lists).
Recursions that are not structural use an explicit fuel argument that is
always called with at least the length of the scanned text, so every
definition reduces in the kernel.
-/

namespace BlockTerm

/-- Characters appearing in terminal escape sequences. -/
def escChar : Char := Char.ofNat 27

def belChar : Char := Char.ofNat 7

def bsChar : Char := Char.ofNat 8

/-- Streams and strings are modelled as lists of characters. -/
abbrev Text := List Char

/-- Conversion from a string literal to the `Text` model. -/
def lc (s : String) : Text := s.data

/-- Does `s` start with `p`?  (JS `String.prototype.startsWith`.) -/
def startsWithL : Text → Text → Bool
  | _, [] => true
  | [], _ :: _ => false
  | c :: s, p :: ps => c == p && startsWithL s ps

/-- Does `s` end with `p`?  (JS `String.prototype.endsWith`.) -/
def endsWithL (s p : Text) : Bool := startsWithL s.reverse p.reverse

/-- Index of the first occurrence of `pat` in `s`, scanning from the head. -/
def indexOfAux : Text → Text → Option Nat
  | s, pat =>
    match s with
    | [] => if pat.isEmpty then some 0 else none
    | _ :: rest =>
      if startsWithL s pat then some 0
      else (indexOfAux rest pat).map (· + 1)

/-- JS `text.indexOf(pat, start)` (absolute index, `none` for -1). -/
def indexOfFrom (s pat : Text) (start : Nat) : Option Nat :=
  (indexOfAux (s.drop start) pat).map (· + start)

/-- Does `pat` occur anywhere in `s`?  (JS `String.prototype.includes`.) -/
def containsSeq (s pat : Text) : Bool := (indexOfAux s pat).isSome

/-- JS `s.lastIndexOf(c)` for a single character (`none` for -1). -/
def lastIndexOfChar : Text → Char → Option Nat
  | [], _ => none
  | a :: rest, c =>
    match lastIndexOfChar rest c with
    | some i => some (i + 1)
    | none => if a == c then some 0 else none

/-- Single-character membership (JS `String.prototype.includes` with a
one-character needle). -/
def hasChar : Text → Char → Bool
  | [], _ => false
  | a :: t, c => a == c || hasChar t c

/-- CSI parameter byte (0x30-0x3F). -/
def isCsiParam (c : Char) : Bool := 0x30 ≤ c.toNat && c.toNat ≤ 0x3F

/-- CSI intermediate byte (0x20-0x2F). -/
def isCsiInter (c : Char) : Bool := 0x20 ≤ c.toNat && c.toNat ≤ 0x2F

/-- CSI final byte (0x40-0x7E). -/
def isCsiFinal (c : Char) : Bool := 0x40 ≤ c.toNat && c.toNat ≤ 0x7E

/-- Test of the anchored CSI-completeness regex on `ESC '[' rest`
(parameter bytes, then intermediate bytes, then a final byte): the three
character classes are pairwise disjoint, so the greedy match is
deterministic and no backtracking can succeed where it fails. -/
def csiCompleteAfter (rest : Text) : Bool :=
  match (rest.dropWhile isCsiParam).dropWhile isCsiInter with
  | f :: _ => isCsiFinal f
  | [] => false

/--
Embedding of `findTrailingPartialEscape` (src/frontend/src/ui/lib/utils.ts).
Returns the start index of a trailing incomplete ANSI escape sequence,
`none` when the string ends cleanly (JS returns -1).
The JS guard `lastEsc < s.length - 20` is over ordinary integers, which on
naturals is `lastEsc + 20 < s.length`.
-/
def findTrailingPartialEscape (s : Text) : Option Nat :=
  match lastIndexOfChar s escChar with
  | none => none
  | some lastEsc =>
    if lastEsc + 20 < s.length then none
    else
      let tail := s.drop lastEsc
      if tail.length == 1 then some lastEsc
      else
        match tail with
        | _ :: '[' :: rest => if csiCompleteAfter rest then none else some lastEsc
        | _ :: ']' :: _ =>
          if hasChar tail belChar || (indexOfFrom tail [escChar, '\\'] 2).isSome
          then none
          else some lastEsc
        | _ => none

/-- First cleaning pass, `.replace(/\r\n/g, '\n')`. -/
def replaceCrlf : Text → Text
  | '\r' :: '\n' :: rest => '\n' :: replaceCrlf rest
  | c :: rest => c :: replaceCrlf rest
  | [] => []

/-- Second cleaning pass, `.replace(/\r/g, '\n')`. -/
def replaceCr (s : Text) : Text := s.map (fun c => if c == '\r' then '\n' else c)

/-- Third cleaning pass of `cleanTerminalOutput`:
strip complete CSI sequences.  A failed match attempt at an ESC emits the
ESC and rescans from the next character, exactly as a JS global replace
advances by one after a failed attempt. -/
def stripCsiF : Nat → Text → Text
  | 0, s => s
  | _ + 1, [] => []
  | fuel + 1, c :: rest =>
    if c == escChar then
      match rest with
      | '[' :: r1 =>
        match (r1.dropWhile isCsiParam).dropWhile isCsiInter with
        | f :: r4 =>
          if isCsiFinal f then stripCsiF fuel r4 else c :: stripCsiF fuel rest
        | [] => c :: stripCsiF fuel rest
      | _ => c :: stripCsiF fuel rest
    else c :: stripCsiF fuel rest

def stripCsi (s : Text) : Text := stripCsiF s.length s

/-- Fourth cleaning pass, `.replace(/\x1b\][^\x07\x1b]*(?:\x07|\x1b\\)/g, '')`:
strip complete OSC sequences.  The greedy body excludes exactly the two
possible terminator introducers, so backtracking cannot rescue a failed
terminator and the match is deterministic. -/
def stripOscF : Nat → Text → Text
  | 0, s => s
  | _ + 1, [] => []
  | fuel + 1, c :: rest =>
    if c == escChar then
      match rest with
      | ']' :: r1 =>
        let body := r1.takeWhile (fun x => x != belChar && x != escChar)
        match r1.drop body.length with
        | b :: r4 =>
          if b == belChar then stripOscF fuel r4
          else
            match r4 with
            | '\\' :: r5 => stripOscF fuel r5
            | _ => c :: stripOscF fuel rest
        | [] => c :: stripOscF fuel rest
      | _ => c :: stripOscF fuel rest
    else c :: stripOscF fuel rest

def stripOsc (s : Text) : Text := stripOscF s.length s

/-- Fifth cleaning pass, `.replace(/\x1b[@-_]/g, '')`: two-character escapes. -/
def stripTwoChar : Text → Text
  | [] => []
  | [c] => [c]
  | c :: c2 :: rest =>
    if c == escChar && (0x40 ≤ c2.toNat && c2.toNat ≤ 0x5F)
    then stripTwoChar rest
    else c :: stripTwoChar (c2 :: rest)

/-- Sixth cleaning pass, `.replace(/\x1b./g, '')`: a lone ESC plus any
character.  JS `.` does not match a newline, so `ESC '\n'` survives. -/
def stripLoneEsc : Text → Text
  | [] => []
  | [c] => [c]
  | c :: c2 :: rest =>
    if c == escChar && c2 != '\n'
    then stripLoneEsc rest
    else c :: stripLoneEsc (c2 :: rest)

/-- Backspace pass: a backspace pops the previously emitted character
(`out.pop()` on an empty array is a no-op). -/
def bsFold : Text → Text → Text
  | acc, [] => acc.reverse
  | acc, c :: rest =>
    if c == bsChar then bsFold acc.tail rest else bsFold (c :: acc) rest

/-- Whitespace trimmed by JS `trimEnd` (ASCII-relevant subset plus NBSP). -/
def isTrimWs (c : Char) : Bool :=
  c == ' ' || c == '\t' || c == Char.ofNat 11 || c == Char.ofNat 12 ||
  c == '\r' || c == Char.ofNat 0xA0

def trimEndL (line : Text) : Text := (line.reverse.dropWhile isTrimWs).reverse

/-- `s.split('\n')`, keeping empty segments. -/
def splitLinesAux : Text → Text → List Text
  | cur, [] => [cur.reverse]
  | cur, '\n' :: rest => cur.reverse :: splitLinesAux [] rest
  | cur, c :: rest => splitLinesAux (c :: cur) rest

def splitLines (s : Text) : List Text := splitLinesAux [] s

def joinLines (ls : List Text) : Text := List.intercalate ['\n'] ls

/--
Embedding of `cleanTerminalOutput` (src/frontend/src/ui/lib/utils.ts):
normalise CR/CRLF, strip CSI, OSC, two-character and lone escape
sequences (in that order, as sequential global replaces), apply
backspaces, then trim trailing whitespace from each line.
-/
def cleanTerminalOutput (raw : Text) : Text :=
  joinLines
    (List.map trimEndL
      (splitLines
        (bsFold []
          (stripLoneEsc
            (stripTwoChar
              (stripOsc
                (stripCsi
                  (replaceCr (replaceCrlf raw)))))))))

/-- Marker tokens (src/frontend/src/ui/hooks/useBlocks.ts). -/
def markerStart : Text := lc "<<<BLOCKTERM:START>>>"

/-- Literal head of the END marker, used for partial-match detection. -/
def markerEndLead : Text := lc "<<<BLOCKTERM:END exit="

/-- Part of the OSC 7 regex: try to match the capture group (one or more
characters excluding BEL and ESC) followed by a BEL or ST terminator,
returning the capture and the remainder after the match.  Shrinking the
greedy capture cannot create a terminator, so no backtracking is needed
inside this part. -/
def osc7Capture (r : Text) : Option (Text × Text) :=
  let cap := r.takeWhile (fun c => c != belChar && c != escChar)
  if cap.isEmpty then none
  else
    match r.drop cap.length with
    | b :: rest =>
      if b == belChar then some (cap, rest)
      else
        match rest with
        | '\\' :: rest2 => if b == escChar then some (cap, rest2) else none
        | _ => none
    | [] => none

/-- Backtracking over the optional host part of the OSC 7 regex: the host
class excludes only a slash, so the greedy engine tries host lengths from
the maximal slash-free run down to zero. -/
def osc7TryHosts (afterScheme : Text) : Nat → Option (Text × Text)
  | 0 => osc7Capture afterScheme
  | n + 1 =>
    (osc7Capture (afterScheme.drop (n + 1))).orElse
      (fun _ => osc7TryHosts afterScheme n)

/-- Match attempt of the OSC 7 regex body after the literal `ESC ] 7 ;`
head: an optional greedy scheme-and-host part, then the capture. -/
def osc7Body (r : Text) : Option (Text × Text) :=
  if startsWithL r (lc "file://") then
    let afterScheme := r.drop 7
    match osc7TryHosts afterScheme (afterScheme.takeWhile (fun c => c != '/')).length with
    | some res => some res
    | none => osc7Capture r
  else osc7Capture r

/-- Match attempt of the whole OSC 7 regex at the head of `s`. -/
def osc7MatchAt (s : Text) : Option (Text × Text) :=
  match s with
  | e :: ']' :: '7' :: ';' :: r => if e == escChar then osc7Body r else none
  | _ => none

/-- Global scan of the OSC 7 regex keeping the last capture, as the
`while ((m = OSC7_RE.exec(raw)) !== null)` loop does. -/
def osc7ScanF : Nat → Text → Option Text → Option Text
  | 0, _, last => last
  | fuel + 1, s, last =>
    match osc7MatchAt s with
    | some (cap, rest) => osc7ScanF fuel rest (some cap)
    | none =>
      match s with
      | [] => last
      | _ :: t => osc7ScanF fuel t last

/-- Hex digit value (for percent decoding). -/
def hexVal (c : Char) : Option Nat :=
  if '0' ≤ c && c ≤ '9' then some (c.toNat - 48)
  else if 'a' ≤ c && c ≤ 'f' then some (c.toNat - 87)
  else if 'A' ≤ c && c ≤ 'F' then some (c.toNat - 70)
  else none

/-- Model of JS `decodeURIComponent`: percent escapes are decoded
byte-wise (`none` models a thrown `URIError`).  Multi-byte UTF-8 percent
sequences are not reassembled; the streams in the claims are percent-free,
where the builtin is the identity, as this model is. -/
def percentDecode : Text → Option Text
  | [] => some []
  | c :: rest =>
    if c = '%' then
      match rest with
      | a :: b :: rest2 =>
        match hexVal a, hexVal b with
        | some x, some y =>
          (percentDecode rest2).map (fun t => Char.ofNat (16 * x + y) :: t)
        | _, _ => none
      | _ => none
    else (percentDecode rest).map (fun t => c :: t)

/--
Embedding of `extractOsc7Cwd` (src/frontend/src/ui/hooks/useBlocks.ts):
the last OSC 7 cwd broadcast in a raw chunk, decoded, falling back to the
raw capture when decoding fails.
-/
def extractOsc7Cwd (raw : Text) : Option Text :=
  (osc7ScanF raw.length raw none).map (fun cap => (percentDecode cap).getD cap)

/--
Embedding of `findTrailingFragment` (src/frontend/src/ui/hooks/useBlocks.ts):
the index where a trailing partial prefix of `needle` starts in
`text.drop frm`, checking prefix lengths from `needle.length - 1` down
to 1 (`none` models -1).
-/
def findTrailingFragmentGo (tail : Text) (frm : Nat) (needle : Text) : Nat → Option Nat
  | 0 => none
  | len + 1 =>
    if endsWithL tail (needle.take (len + 1))
    then some (frm + tail.length - (len + 1))
    else findTrailingFragmentGo tail frm needle len

def findTrailingFragment (text : Text) (frm : Nat) (needle : Text) : Option Nat :=
  let tail := text.drop frm
  findTrailingFragmentGo tail frm needle (min (needle.length - 1) tail.length)

/-- Decimal value of a digit run. -/
def digitsToNat (ds : Text) : Nat := ds.foldl (fun n c => 10 * n + (c.toNat - 48)) 0

/-- Match attempt of `MARKER_END_RE` at the head of `s`: the literal END
lead, an optional minus sign, one or more digits, then three closing
angle brackets.  Returns the match length and the parsed exit code.
Exit codes are modelled as exact integers (JS `parseInt` loses precision
only beyond 2^53, irrelevant to the streams in the claims). -/
def matchEndAt (s : Text) : Option (Nat × Int) :=
  if startsWithL s markerEndLead then
    let r := s.drop markerEndLead.length
    let (neg, r1) :=
      match r with
      | '-' :: rr => (true, rr)
      | _ => (false, r)
    let digits := r1.takeWhile Char.isDigit
    if digits.isEmpty then none
    else if startsWithL (r1.drop digits.length) (lc ">>>") then
      let v : Int := digitsToNat digits
      some (markerEndLead.length + (if neg then 1 else 0) + digits.length + 3,
            if neg then -v else v)
    else none
  else none

/-- Leftmost match of `MARKER_END_RE` in `s` (index, length, exit code). -/
def execEndF : Nat → Text → Nat → Option (Nat × Nat × Int)
  | 0, _, _ => none
  | fuel + 1, s, idx =>
    match matchEndAt s with
    | some (len, code) => some (idx, len, code)
    | none =>
      match s with
      | [] => none
      | _ :: t => execEndF fuel t (idx + 1)

def execEnd (s : Text) : Option (Nat × Nat × Int) := execEndF (s.length + 1) s 0

/-- One reconstructed command block (the fields of `Block` plus its
output buffer from `blockContentsRef`; ids, offsets, timestamps and the
collapsed flag are presentational and not modelled — blocks are addressed
by their position in the list). -/
structure BlockRec where
  command : Text
  cwd : Text
  exitCode : Option Int
  output : Text
deriving DecidableEq, Repr

/-- The parser state held in the hook's refs (src/frontend/src/ui/hooks/useBlocks.ts). -/
structure ParserState where
  inBlock : Bool
  activeId : Option Nat
  activeCmd : Text
  fragment : Text
  rawBuffer : Text
  cwd : Text
  isFullscreen : Bool
  blocks : List BlockRec
deriving DecidableEq, Repr

/-- State after the reset effect for a fresh session, with `currentPath`. -/
def initState (path : Text) : ParserState :=
  { inBlock := false, activeId := none, activeCmd := [], fragment := [],
    rawBuffer := [], cwd := path, isFullscreen := false, blocks := [] }

/-- Append `content` to the output buffer of the block at index `i`. -/
def appendOutputAt : List BlockRec → Nat → Text → List BlockRec
  | [], _, _ => []
  | b :: bs, 0, content => { b with output := b.output ++ content } :: bs
  | b :: bs, n + 1, content => b :: appendOutputAt bs n content

/-- Record the exit code of the block at index `i` (the `setBlocks` map
closing `closedId`). -/
def closeBlockAt : List BlockRec → Nat → Int → List BlockRec
  | [], _, _ => []
  | b :: bs, 0, code => { b with exitCode := some code } :: bs
  | b :: bs, n + 1, code => b :: closeBlockAt bs n code

/-- Embedding of `appendToBlock`: a no-op on empty content or with no
active block. -/
def appendToBlock (st : ParserState) (content : Text) : ParserState :=
  if content.isEmpty then st
  else
    match st.activeId with
    | none => st
    | some i => { st with blocks := appendOutputAt st.blocks i content }

/--
The marker scan loop of the `onOutput` handler
(src/frontend/src/ui/hooks/useBlocks.ts): outside a block it looks for a
START token (carrying a partial prefix of it forward and discarding the
rest), inside a block it looks for a complete END token (carrying a
partial prefix of the END lead forward and appending preceding text to
the active block).  `fuel` only bounds the iteration count; the position
strictly increases on every recursive call, so any fuel of at least
`text.length + 1` is exact.
-/
def scanLoop : Nat → ParserState → Text → Nat → ParserState
  | 0, st, _, _ => st
  | fuel + 1, st, text, pos =>
    if pos < text.length then
      if st.inBlock then
        let remaining := text.drop pos
        match execEnd remaining with
        | none =>
          let stepped :=
            match findTrailingFragment text pos markerEndLead with
            | some fragIdx => ({ st with fragment := text.drop fragIdx }, fragIdx)
            | none => (st, text.length)
          appendToBlock stepped.1 (remaining.take (stepped.2 - pos))
        | some (endOff, len, code) =>
          let st1 := appendToBlock st (remaining.take endOff)
          let st2 :=
            match st1.activeId with
            | some i => { st1 with blocks := closeBlockAt st1.blocks i code }
            | none => st1
          scanLoop fuel
            { st2 with activeId := none, activeCmd := [], inBlock := false }
            text (pos + endOff + len)
      else
        match indexOfFrom text markerStart pos with
        | none =>
          match findTrailingFragment text pos markerStart with
          | some fragIdx => { st with fragment := text.drop fragIdx }
          | none => st
        | some startIdx =>
          let st1 :=
            match st.activeId with
            | none =>
              { st with
                blocks := st.blocks ++
                  [({ command := [], cwd := st.cwd,
                      exitCode := none, output := [] } : BlockRec)],
                activeId := some st.blocks.length }
            | some _ => st
          scanLoop fuel { st1 with inBlock := true } text
            (startIdx + markerStart.length)
    else st

/-- Alternate-screen-buffer enter and leave sequences. -/
def altEnter1 : Text := escChar :: lc "[?1049h"

def altEnter2 : Text := escChar :: lc "[?47h"

def altLeave1 : Text := escChar :: lc "[?1049l"

def altLeave2 : Text := escChar :: lc "[?47l"

/--
Pre-scan part of the `onOutput` handler: reassemble the pending escape
fragment, cut off a trailing partial escape, detect alternate-screen
transitions, track the OSC 7 cwd (a non-empty decoded cwd differing from
the current one wins), clean the processed part, and prepend the pending
marker fragment.  Returns the updated state and the text for the scan
loop.
-/
def prepChunk (st : ParserState) (chunk : Text) : ParserState × Text :=
  let rawFull := st.rawBuffer ++ chunk
  let split :=
    match findTrailingPartialEscape rawFull with
    | some i => (rawFull.take i, rawFull.drop i)
    | none => (rawFull, ([] : Text))
  let raw := split.1
  let fs1 :=
    if containsSeq raw altEnter1 || containsSeq raw altEnter2 then true
    else st.isFullscreen
  let fs2 :=
    if containsSeq raw altLeave1 || containsSeq raw altLeave2 then false
    else fs1
  let cwd1 :=
    match extractOsc7Cwd raw with
    | some c => if !c.isEmpty && c ≠ st.cwd then c else st.cwd
    | none => st.cwd
  ({ st with rawBuffer := split.2, isFullscreen := fs2, cwd := cwd1,
             fragment := [] },
   st.fragment ++ cleanTerminalOutput raw)

/-- The cleaned text (with the carried-over fragment prepended) that the
marker scan loop sees for a given state and incoming chunk. -/
def incomingCleanText (st : ParserState) (chunk : Text) : Text :=
  (prepChunk st chunk).2

/-- Embedding of the whole `onOutput` handler for one chunk. -/
def processChunk (st : ParserState) (chunk : Text) : ParserState :=
  let pc := prepChunk st chunk
  scanLoop (pc.2.length + 1) pc.1 pc.2 0

/-- Feeding a sequence of chunks in order. -/
def feed (st : ParserState) (chunks : List Text) : ParserState :=
  chunks.foldl processChunk st

/-- Embedding of `addBlock`: pre-register a block for a command submitted
through the structured input. -/
def addBlock (st : ParserState) (command : Text) : ParserState :=
  { st with
    blocks := st.blocks ++ [{ command := command, cwd := st.cwd,
                              exitCode := none, output := [] }],
    activeId := some st.blocks.length,
    activeCmd := command }

/-- The observable Block records: command text, accumulated output, exit
code, in order. -/
def blockRecords (st : ParserState) : List (Text × Text × Option Int) :=
  st.blocks.map (fun b => (b.command, b.output, b.exitCode))

/-- An OSC 7 cwd broadcast sequence in bare-path form, BEL-terminated. -/
def osc7Seq (p : Text) : Text :=
  escChar :: ']' :: '7' :: ';' :: (p ++ [belChar])

/-
Backend session manager (src/backend/internal/session/service.go,
models.go).  Sessions are Go heap objects referenced both from the
manager's map and from the per-session goroutines, so the model keeps a
heap (`objs`, an association list that is never shrunk, standing for the
objects) separate from the manager's live table (`table`, the key set of
`m.sessions`).  OS-level effects (closing the pty descriptor, killing the
process, running the injector cleanup) are modelled as per-object
counters; error strings are abstracted to tags; uuids are abstracted to
caller-supplied fresh naturals.
-/

inductive SessionState where
  | running
  | closed
  | exited
deriving DecidableEq, Repr

/-- One pty session object (`Session` in models.go).  `ptyPresent` and
`procPresent` model `PTY != nil` and `Process != nil` (Go never nils them
out, so they stay true after a close); the counters record how many times
each OS-level effect ran. -/
structure GoSession where
  shell : Text
  cwd : Text
  cols : Int
  rows : Int
  state : SessionState
  ptyPresent : Bool
  ptyCloseCount : Nat
  procPresent : Bool
  killCount : Nat
  hasCleanup : Bool
  cleanupCount : Nat
deriving DecidableEq, Repr

/-- The manager (`Manager` in service.go): live id table plus the heap. -/
structure ManagerState where
  table : List Nat
  objs : List (Nat × GoSession)
deriving DecidableEq, Repr

/-- Error tags for the manager's error returns. -/
inductive GoErr where
  | notFound
  | notRunning
  | colsZero
  | rowsZero
  | prepFail
  | ptyFail
deriving DecidableEq, Repr

/-- Key-presence test of the manager's map. -/
def hasId : List Nat → Nat → Bool
  | [], _ => false
  | a :: t, id => a == id || hasId t id

/-- Key deletion from the manager's map (Go `delete(m.sessions, id)`). -/
def removeId : List Nat → Nat → List Nat
  | [], _ => []
  | a :: t, id => if a == id then removeId t id else a :: removeId t id

/-- Heap lookup by id (first match, ids are unique in well-formed states). -/
def lookupObj : List (Nat × GoSession) → Nat → Option GoSession
  | [], _ => none
  | (i, s) :: rest, id => if i == id then some s else lookupObj rest id

/-- Heap update by id (mutation through the shared pointer). -/
def updateObj : List (Nat × GoSession) → Nat → GoSession → List (Nat × GoSession)
  | [], _, _ => []
  | (i, s) :: rest, id, s1 =>
    if i == id then (i, s1) :: rest else (i, s) :: updateObj rest id s1

/-- Embedding of `Manager.GetSession`: a map lookup, `not found` error
for an id absent from the live table. -/
def getSession (m : ManagerState) (id : Nat) : Except GoErr GoSession :=
  if hasId m.table id then
    match lookupObj m.objs id with
    | some s => Except.ok s
    | none => Except.error GoErr.notFound
  else Except.error GoErr.notFound

/--
Embedding of `Manager.CloseSession`: look up and delete the id from the
live table (error if absent), then — on the session object — return early
if already `Closed`, else set `Closed`, close the pty if present, kill
the process if present, and run the injector cleanup if present.
-/
def closeSession (m : ManagerState) (id : Nat) : Except GoErr Unit × ManagerState :=
  if hasId m.table id then
    let m1 : ManagerState := { m with table := removeId m.table id }
    match lookupObj m.objs id with
    | none => (Except.ok (), m1)
    | some s =>
      if s.state = SessionState.closed then (Except.ok (), m1)
      else
        let s1 := { s with state := SessionState.closed }
        let s2 :=
          if s1.ptyPresent then { s1 with ptyCloseCount := s1.ptyCloseCount + 1 } else s1
        let s3 :=
          if s2.procPresent then { s2 with killCount := s2.killCount + 1 } else s2
        let s4 :=
          if s3.hasCleanup then { s3 with cleanupCount := s3.cleanupCount + 1 } else s3
        (Except.ok (), { m1 with objs := updateObj m1.objs id s4 })
  else (Except.error GoErr.notFound, m)

/--
Embedding of `Manager.ResizeSession`: get the session (error on an absent
id), reject if not `Running`, else store the new size and resize the pty
(the ioctl itself is abstracted as succeeding).
-/
def resizeSession (m : ManagerState) (id : Nat) (cols rows : Int) :
    Except GoErr Unit × ManagerState :=
  match getSession m id with
  | Except.error e => (Except.error e, m)
  | Except.ok s =>
    if s.state = SessionState.running then
      (Except.ok (), { m with objs := updateObj m.objs id { s with cols := cols, rows := rows } })
    else (Except.error GoErr.notRunning, m)

/--
Embedding of the tail of `Manager.monitorProcess`, run when `cmd.Wait()`
returns because the child terminated: mark the session object `Exited`
if it was still `Running` (an explicit `Closed` wins), then delete the
session from the manager's live table.
-/
def processExit (m : ManagerState) (id : Nat) : ManagerState :=
  let m1 :=
    match lookupObj m.objs id with
    | some s =>
      if s.state = SessionState.running
      then { m with objs := updateObj m.objs id { s with state := SessionState.exited } }
      else m
    | none => m
  { m1 with table := removeId m1.table id }

/-- Boolean form of the session-not-running condition at an id: the id is
absent or its session's state is not `Running`. -/
def notRunningAt (m : ManagerState) (id : Nat) : Bool :=
  match getSession m id with
  | Except.ok s => s.state != SessionState.running
  | Except.error _ => true

/-- Options for `Manager.StartSession` (`SessionOptions` in models.go;
the env slice is not observed by any claim and is omitted). -/
structure SessionOptions where
  shell : Text
  cwd : Text
  cols : Int
  rows : Int
deriving DecidableEq, Repr

/-- The ambient environment of a start: platform shell probing
(`defaultShell`), the home directory (`homeDir`), and whether the
injector's temp-file creation and the pty spawn succeed. -/
structure StartEnv where
  defaultShell : Text
  homeDir : Text
  prepOk : Bool
  prepHasCleanup : Bool
  ptyOk : Bool
deriving DecidableEq, Repr

/-- Result of a start: the outcome, the new manager state, and which
resource-allocating steps were reached (`touchedInit` — the injector's
temp init file, `touchedPty` — the pty/child spawn). -/
structure StartResult where
  res : Except GoErr Nat
  m : ManagerState
  touchedInit : Bool
  touchedPty : Bool
deriving Repr

/--
Embedding of `Manager.StartSession`: reject `Cols == 0` and `Rows == 0`
(the Go code compares to zero, not to the sign), default the shell and
the cwd when empty, prepare the shell command (temp init file), spawn the
pty, register the session in the live table, in source order.  `newId`
abstracts the fresh uuid.
-/
def startSession (env : StartEnv) (m : ManagerState) (newId : Nat)
    (opts : SessionOptions) : StartResult :=
  if opts.cols = 0 then
    { res := Except.error GoErr.colsZero, m := m, touchedInit := false, touchedPty := false }
  else if opts.rows = 0 then
    { res := Except.error GoErr.rowsZero, m := m, touchedInit := false, touchedPty := false }
  else
    let shell := if opts.shell.isEmpty then env.defaultShell else opts.shell
    let cwd := if opts.cwd.isEmpty then env.homeDir else opts.cwd
    if !env.prepOk then
      { res := Except.error GoErr.prepFail, m := m, touchedInit := true, touchedPty := false }
    else if !env.ptyOk then
      { res := Except.error GoErr.ptyFail, m := m, touchedInit := true, touchedPty := true }
    else
      let s : GoSession :=
        { shell := shell, cwd := cwd, cols := opts.cols, rows := opts.rows,
          state := SessionState.running, ptyPresent := true, ptyCloseCount := 0,
          procPresent := true, killCount := 0,
          hasCleanup := env.prepHasCleanup, cleanupCount := 0 }
      { res := Except.ok newId,
        m := { table := m.table ++ [newId], objs := m.objs ++ [(newId, s)] },
        touchedInit := true, touchedPty := true }

/-- The gRPC `StartSessionRequest` (shell, cwd, env map — it carries no
terminal-size fields). -/
structure StartSessionRequest where
  shell : Text
  cwd : Text
  env : List (Text × Text)
deriving DecidableEq, Repr

/--
Embedding of the gRPC handler `Service.StartSession`
(src/backend/internal/session/service.go, lines 30-56): it builds
`SessionOptions` from the request's shell and cwd with the hardcoded
default terminal size of 80 columns by 24 rows, and calls the manager.
-/
def serviceStartSession (env : StartEnv) (m : ManagerState) (newId : Nat)
    (req : StartSessionRequest) : StartResult :=
  startSession env m newId
    { shell := req.shell, cwd := req.cwd, cols := 80, rows := 24 }

/-- A running sample session used by the concrete runs below. -/
def sampleSession : GoSession :=
  { shell := lc "/bin/zsh", cwd := lc "/home/u", cols := 80, rows := 24,
    state := SessionState.running, ptyPresent := true, ptyCloseCount := 0,
    procPresent := true, killCount := 0, hasCleanup := true, cleanupCount := 0 }

/-- A manager owning the single running sample session under id 0. -/
def sampleManager : ManagerState :=
  { table := [0], objs := [(0, sampleSession)] }

/-- A manager whose only session (id 0) has exited but is still in the
live table (the instant between `cmd.Wait()` returning and the monitor's
table cleanup). -/
def exitedManager : ManagerState :=
  { table := [0], objs := [(0, { sampleSession with state := SessionState.exited })] }

/-- A fully permissive start environment. -/
def sampleEnv : StartEnv :=
  { defaultShell := lc "/bin/zsh", homeDir := lc "/home/u",
    prepOk := true, prepHasCleanup := true, ptyOk := true }

/-- A request with everything defaulted (as the Electron client sends for
a plain new tab). -/
def sampleReq : StartSessionRequest := { shell := [], cwd := [], env := [] }

/-- A parser state that is inside a block: block `i` is active, no
pending fragments, arbitrary cwd, fullscreen flag, active command and
block list. -/
def inBlockState (acmd path : Text) (fs : Bool) (i : Nat)
    (bs : List BlockRec) : ParserState :=
  { inBlock := true, activeId := some i, activeCmd := acmd,
    fragment := [], rawBuffer := [], cwd := path, isFullscreen := fs,
    blocks := bs }

/-- Appending output to a block never changes the number of blocks. -/
theorem appendOutputAt_length (bs : List BlockRec) (i : Nat) (t : Text) :
    (appendOutputAt bs i t).length = bs.length := by
  induction bs generalizing i with
  | nil => rfl
  | cons b rest ih =>
    cases i with
    | zero => rfl
    | succ n => simp [appendOutputAt, ih]

/-- A failed match at the head still fails on the tail if the whole
search failed. -/
theorem indexOfAux_cons_none {c : Char} {t pat : Text}
    (h : indexOfAux (c :: t) pat = none) : indexOfAux t pat = none := by
  rw [indexOfAux] at h
  by_cases hs : startsWithL (c :: t) pat = true
  · rw [if_pos hs] at h; cases h
  · rw [if_neg hs] at h
    cases he : indexOfAux t pat with
    | none => rfl
    | some v => rw [he] at h; simp at h

/-- A pattern absent from the whole text is absent from every suffix. -/
theorem indexOfFrom_none {s pat : Text} (h : indexOfAux s pat = none)
    (start : Nat) : indexOfFrom s pat start = none := by
  have key : ∀ n l, indexOfAux l pat = none → indexOfAux (List.drop n l) pat = none := by
    intro n
    induction n with
    | zero => intro l hl; simpa using hl
    | succ k ih =>
      intro l hl
      cases l with
      | nil => simpa using hl
      | cons c t => rw [List.drop_succ_cons]; exact ih t (indexOfAux_cons_none hl)
  rw [indexOfFrom, key start s h]; rfl

/-- `containsSeq` reflects `indexOfAux`. -/
theorem containsSeq_false {s pat : Text} (h : containsSeq s pat = false) :
    indexOfAux s pat = none := by
  rw [containsSeq] at h
  cases he : indexOfAux s pat with
  | none => rfl
  | some v => rw [he] at h; simp at h

/-- Outside a block, a scan over text holding no START token touches
neither the block list nor the in-block flag nor the active id. -/
theorem scanLoop_outside (fuel : Nat) (st : ParserState) (text : Text) (pos : Nat)
    (hin : st.inBlock = false) (hidx : indexOfFrom text markerStart pos = none) :
    (scanLoop fuel st text pos).blocks = st.blocks
    ∧ (scanLoop fuel st text pos).inBlock = false
    ∧ (scanLoop fuel st text pos).activeId = st.activeId := by
  cases fuel with
  | zero => exact ⟨rfl, hin, rfl⟩
  | succ n =>
    simp only [scanLoop, hin, Bool.false_eq_true, if_false, hidx]
    split
    · split
      · exact ⟨rfl, rfl, rfl⟩
      · exact ⟨rfl, hin, rfl⟩
    · exact ⟨rfl, hin, rfl⟩

/--
C1: the claim asserts that every re-chunking of a byte stream yields the
identical sequence of Block records.  The code violates this: the stream
`<<<BLOCKTERM:START>>>a b<<<BLOCKTERM:END exit=0>>>` fed as one chunk
yields a block with output `a b`, but fed as the two chunks split after
`a ` it yields output `ab` — `cleanTerminalOutput` trims trailing
whitespace from each line of each chunk in isolation, so the space at
the chunk boundary is deleted.  This theorem evaluates both runs.
-/
theorem c1_chunk_split_changes_output :
    blockRecords (feed (initState (lc "~"))
        [lc "<<<BLOCKTERM:START>>>a b<<<BLOCKTERM:END exit=0>>>"])
      = [([], lc "a b", some 0)]
    ∧ blockRecords (feed (initState (lc "~"))
        [lc "<<<BLOCKTERM:START>>>a ", lc "b<<<BLOCKTERM:END exit=0>>>"])
      = [([], lc "ab", some 0)] :=
  ⟨rfl, rfl⟩

/--
C2: the claim asserts that splitting `<<<BLOCKTERM:END exit=0>>>` at any
offset 0 < k < 25 across two chunks still yields one closed block with
exit code 0 and no token bytes in the output.  The code violates this at
k = 22 (and 23, 24): `findTrailingFragment` only detects fragments up to
`MARKER_END_PREFIX.length - 1 = 21` characters, so once the full 22-char
END lead has arrived without the digits and closing brackets, the marker
bytes are appended to the block's output and the block never closes.
This theorem evaluates the k = 22 split (block open, marker bytes
leaked) against the single-chunk run (block closed, clean output).
-/
theorem c2_end_split_at_22_leaks_marker :
    blockRecords (feed (initState (lc "~"))
        [lc "<<<BLOCKTERM:START>>>hi\n<<<BLOCKTERM:END exit=", lc "0>>>"])
      = [([], lc "hi\n<<<BLOCKTERM:END exit=0>>>", none)]
    ∧ blockRecords (feed (initState (lc "~"))
        [lc "<<<BLOCKTERM:START>>>hi\n<<<BLOCKTERM:END exit=0>>>"])
      = [([], lc "hi\n", some 0)] :=
  ⟨rfl, rfl⟩

/--
C3 counterexample: the claim says a second complete START token arriving
while `inBlock` opens a fresh block that becomes active, leaving the
previous block permanently open with a null exit code.  In the code the
END-search branch never looks for START, so the run
`<<<BLOCKTERM:START>>>x<<<BLOCKTERM:START>>>y<<<BLOCKTERM:END exit=0>>>`
produces exactly ONE block — no fresh block is opened, the second START
token is appended verbatim to the active block's output, and that block
is closed by the END with exit code 0 (not left open-ended).
-/
theorem c3_nested_start_is_plain_text :
    blockRecords (feed (initState (lc "~"))
        [lc "<<<BLOCKTERM:START>>>x<<<BLOCKTERM:START>>>y<<<BLOCKTERM:END exit=0>>>"])
      = [([], lc "x<<<BLOCKTERM:START>>>y", some 0)] :=
  rfl

/--
C4: the claim says CloseSession is idempotent — both calls succeed, with
no double close or kill.  The code violates the first part: CloseSession
deletes the id from the live table before the already-closed check, so
the second call takes the not-found path and returns an error.  This
theorem evaluates both calls on a running session: the first succeeds
and closes the pty and kills the child exactly once (and runs the
cleanup once), the second returns the not-found error.
-/
theorem c4_second_close_errors :
    (closeSession sampleManager 0).1 = Except.ok ()
    ∧ (closeSession (closeSession sampleManager 0).2 0).1
        = Except.error GoErr.notFound
    ∧ (lookupObj (closeSession (closeSession sampleManager 0).2 0).2.objs 0).map
        (fun s => (s.state, s.ptyCloseCount, s.killCount, s.cleanupCount))
      = some (SessionState.closed, 1, 1, 1) :=
  ⟨rfl, rfl, rfl⟩

/--
C5 counterexample: the claim says a session whose child exited on its own
stays queryable via GetSession (state Exited) until CloseSession.  In the
code `monitorProcess` also deletes the session from the live table, so on
the concrete run below GetSession returns the not-found error right after
the exit, even though the heap object was marked Exited.
-/
theorem c5_exited_session_not_queryable :
    getSession (processExit sampleManager 0) 0 = Except.error GoErr.notFound
    ∧ (lookupObj (processExit sampleManager 0).objs 0).map (fun s => s.state)
      = some SessionState.exited :=
  ⟨rfl, rfl⟩

/--
C8 counterexample: the claim says an OSC-7 cwd sequence split at ANY byte
offset is recorded once complete.  `findTrailingPartialEscape` only looks
for an ESC within the last 20 characters, so a sequence whose first chunk
carries more than 20 bytes after the ESC is not buffered: the prefix is
cleaned away, the terminator chunk has no ESC, and the cwd is never
recorded.  This theorem evaluates the sequence `ESC ]7;/abcdefghijklmnopqrstuv BEL`
— fed whole the cwd is recorded, split after 25 bytes it is lost.
-/
theorem c8_long_osc7_split_loses_cwd :
    (feed (initState (lc "~"))
        [escChar :: lc "]7;/abcdefghijklmnopqrst" ++ lc "uv" ++ [belChar]]).cwd
      = lc "/abcdefghijklmnopqrstuv"
    ∧ (feed (initState (lc "~"))
        [escChar :: lc "]7;/abcdefghijklmnopqrst", lc "uv" ++ [belChar]]).cwd
      = lc "~" :=
  ⟨rfl, rfl⟩

/--
C9: the claim says StartSession rejects every request with cols ≤ 0 or
rows ≤ 0 before any resource is allocated.  The code only compares the
sizes to zero (its own error message says `must be greater than 0`), so
cols = -1 passes validation: the temp init file and the pty are
allocated and a session with Cols = -1 is registered.  This theorem
evaluates a cols = -1 request (accepted, resources touched, session
stored with negative cols, shell and cwd defaulted as the claim's second
half describes) next to a cols = 0 request (rejected untouched).
-/
theorem c9_negative_cols_accepted :
    (startSession sampleEnv { table := [], objs := [] } 7
        { shell := [], cwd := [], cols := -1, rows := 24 }).res = Except.ok 7
    ∧ (startSession sampleEnv { table := [], objs := [] } 7
        { shell := [], cwd := [], cols := -1, rows := 24 }).touchedPty = true
    ∧ (lookupObj (startSession sampleEnv { table := [], objs := [] } 7
        { shell := [], cwd := [], cols := -1, rows := 24 }).m.objs 7).map
        (fun s => (s.cols, s.rows, s.shell, s.cwd))
      = some (-1, 24, lc "/bin/zsh", lc "/home/u")
    ∧ (startSession sampleEnv { table := [], objs := [] } 7
        { shell := [], cwd := [], cols := 0, rows := 24 }).res
        = Except.error GoErr.colsZero
    ∧ (startSession sampleEnv { table := [], objs := [] } 7
        { shell := [], cwd := [], cols := 0, rows := 24 }).touchedInit = false :=
  ⟨rfl, rfl, rfl, rfl, rfl⟩

set_option maxHeartbeats 1000000 in
/-- On a START-token chunk, the pre-scan pass of the handler changes
nothing in an in-block state (no escapes, no OSC 7, no fragments). -/
theorem prepChunk_inBlockState (acmd path : Text) (fs : Bool) (i : Nat)
    (bs : List BlockRec) :
    prepChunk (inBlockState acmd path fs i bs) markerStart
      = (inBlockState acmd path fs i bs, markerStart) := rfl

set_option maxHeartbeats 1000000 in
/-- Inside a block, the scan over a lone START token finds no END match
and no END-lead fragment, so the whole token is appended to the active
block's output. -/
theorem scanLoop_inBlockState (acmd path : Text) (fs : Bool) (i : Nat)
    (bs : List BlockRec) :
    scanLoop 22 (inBlockState acmd path fs i bs) markerStart 0
      = { inBlockState acmd path fs i bs with
          blocks := appendOutputAt bs i markerStart } := rfl

/--
C3 amended: whenever the parser is already inside a block and a further
complete START token arrives in the cleaned text, the parser does not
crash and does not close the active block; but instead of opening a
fresh block, it treats the token as ordinary output: the token text is
appended verbatim to the active block's output buffer, the same block
stays active (same `activeId`, still `inBlock`), and the number of
blocks is unchanged.
-/
theorem c3_amended_nested_start_appends (acmd path : Text) (fs : Bool)
    (i : Nat) (bs : List BlockRec) :
    processChunk (inBlockState acmd path fs i bs) markerStart
      = { inBlockState acmd path fs i bs with
          blocks := appendOutputAt bs i markerStart }
    ∧ (appendOutputAt bs i markerStart).length = bs.length := by
  constructor
  · have hprep := prepChunk_inBlockState acmd path fs i bs
    simp only [processChunk, hprep]
    exact scanLoop_inBlockState acmd path fs i bs
  · exact appendOutputAt_length bs i markerStart

/--
C7: an END token arriving in the cleaned text while the parser is not
inside a block is a no-op for segmentation — no block is created, none
is closed, no exit code is recorded (the block list is untouched), the
parser stays outside a block and the pending-block registration is
unchanged; the token is discarded with the rest of the outside-block
text.  The hypothesis states that the incoming cleaned text (whatever it
contains, e.g. an END token) holds no START token.
-/
theorem c7_end_without_block_is_noop (st : ParserState) (chunk : Text)
    (h1 : st.inBlock = false)
    (h2 : containsSeq (incomingCleanText st chunk) markerStart = false) :
    (processChunk st chunk).blocks = st.blocks
    ∧ (processChunk st chunk).inBlock = false
    ∧ (processChunk st chunk).activeId = st.activeId := by
  have hidx : indexOfFrom (prepChunk st chunk).2 markerStart 0 = none :=
    indexOfFrom_none (containsSeq_false h2) 0
  have h1p : (prepChunk st chunk).1.inBlock = false := h1
  exact scanLoop_outside ((prepChunk st chunk).2.length + 1)
    (prepChunk st chunk).1 (prepChunk st chunk).2 0 h1p hidx

/-- Witness for C7: the initial state is outside a block, a chunk that is
exactly an END token contains no START, and processing it leaves the
block list, the flag and the active id unchanged. -/
theorem c7_witness :
    (initState (lc "~")).inBlock = false
    ∧ containsSeq
        (incomingCleanText (initState (lc "~")) (lc "<<<BLOCKTERM:END exit=7>>>"))
        markerStart = false
    ∧ ((processChunk (initState (lc "~")) (lc "<<<BLOCKTERM:END exit=7>>>")).blocks
          = (initState (lc "~")).blocks
       ∧ (processChunk (initState (lc "~")) (lc "<<<BLOCKTERM:END exit=7>>>")).inBlock
          = false
       ∧ (processChunk (initState (lc "~")) (lc "<<<BLOCKTERM:END exit=7>>>")).activeId
          = (initState (lc "~")).activeId) :=
  ⟨rfl, rfl, c7_end_without_block_is_noop (initState (lc "~"))
    (lc "<<<BLOCKTERM:END exit=7>>>") rfl rfl⟩

/-- The only error `GetSession` produces is the not-found error. -/
theorem getSession_error_eq {m : ManagerState} {id : Nat} {e : GoErr}
    (h : getSession m id = Except.error e) : e = GoErr.notFound := by
  rw [getSession] at h
  by_cases ht : hasId m.table id = true
  · rw [if_pos ht] at h
    cases hl : lookupObj m.objs id with
    | some s => rw [hl] at h; cases h
    | none => rw [hl] at h; injection h with h1; exact h1.symm
  · rw [if_neg ht] at h; injection h with h1; exact h1.symm

/--
C6: for every session that is not Running (Closed or Exited, or already
removed from the live table), ResizeSession returns an error and leaves
the whole manager state — in particular the session's stored cols and
rows — unchanged.
-/
theorem c6_resize_not_running_rejected (m : ManagerState) (id : Nat)
    (cols rows : Int) (h : notRunningAt m id = true) :
    (resizeSession m id cols rows).2 = m
    ∧ ((resizeSession m id cols rows).1 = Except.error GoErr.notFound
       ∨ (resizeSession m id cols rows).1 = Except.error GoErr.notRunning) := by
  cases hg : getSession m id with
  | error e =>
    have he : e = GoErr.notFound := getSession_error_eq hg
    subst he
    simp [resizeSession, hg]
  | ok s =>
    have h2 : (s.state != SessionState.running) = true := by
      rw [notRunningAt, hg] at h
      exact h
    have hs : ¬ s.state = SessionState.running := by simpa using h2
    simp only [resizeSession, hg]
    rw [if_neg hs]
    exact ⟨rfl, Or.inr rfl⟩

/-- Witness for C6: resizing the exited sample session is rejected and
mutates nothing. -/
theorem c6_witness :
    notRunningAt exitedManager 0 = true
    ∧ ((resizeSession exitedManager 0 100 50).2 = exitedManager
       ∧ ((resizeSession exitedManager 0 100 50).1 = Except.error GoErr.notFound
          ∨ (resizeSession exitedManager 0 100 50).1 = Except.error GoErr.notRunning)) :=
  ⟨rfl, c6_resize_not_running_rejected exitedManager 0 100 50 rfl⟩

/-- Deleting an id from the table removes it. -/
theorem hasId_removeId (l : List Nat) (id : Nat) :
    hasId (removeId l id) id = false := by
  induction l with
  | nil => rfl
  | cons a t ih =>
    by_cases ha : a = id
    · simp [removeId, ha, ih]
    · simp [removeId, hasId, ha, ih]

/-- Updating the object an id points at makes lookup return the update. -/
theorem lookupObj_updateObj {l : List (Nat × GoSession)} {id : Nat}
    {s : GoSession} (h : lookupObj l id = some s) (s1 : GoSession) :
    lookupObj (updateObj l id s1) id = some s1 := by
  induction l with
  | nil => cases h
  | cons p t ih =>
    obtain ⟨i, s0⟩ := p
    by_cases hi : i = id
    · subst hi
      simp [updateObj, lookupObj]
    · have hne : ¬ ((i == id) = true) := by simpa using hi
      rw [lookupObj, if_neg hne] at h
      rw [updateObj, if_neg hne, lookupObj, if_neg hne]
      exact ih h

/--
C5 amended: after a session's child terminates on its own, the session
object's state becomes Exited (an explicit Closed would win), but
`monitorProcess` also removes the session from the manager's live table,
so GetSession on its id returns the not-found error — the session is NOT
queryable after the exit, contrary to the claim.
-/
theorem c5_amended_exit_marks_and_deletes (m : ManagerState) (id : Nat)
    (s : GoSession) (h1 : lookupObj m.objs id = some s)
    (h2 : s.state = SessionState.running) :
    (lookupObj (processExit m id).objs id).map (fun t => t.state)
      = some SessionState.exited
    ∧ getSession (processExit m id) id = Except.error GoErr.notFound := by
  simp only [processExit, h1]
  rw [if_pos h2]
  constructor
  · show (lookupObj (updateObj m.objs id
      { s with state := SessionState.exited }) id).map (fun t => t.state) = _
    rw [lookupObj_updateObj h1]
    rfl
  · rw [getSession]
    show (if hasId (removeId m.table id) id = true then _ else _) = _
    rw [hasId_removeId]
    simp

/-- Witness for C5: the running sample session, after its process exits,
is marked Exited on the heap but no longer found by GetSession. -/
theorem c5_witness :
    lookupObj sampleManager.objs 0 = some sampleSession
    ∧ sampleSession.state = SessionState.running
    ∧ ((lookupObj (processExit sampleManager 0).objs 0).map (fun t => t.state)
          = some SessionState.exited
       ∧ getSession (processExit sampleManager 0) 0 = Except.error GoErr.notFound) :=
  ⟨rfl, rfl, c5_amended_exit_marks_and_deletes sampleManager 0 sampleSession rfl rfl⟩

/--
C10: the gRPC StartSession handler hardcodes the terminal size 80x24 and
the request carries no size fields, so for every request and every
environment the call can never fail the cols/rows validation, and on
success the registered session's initial size is 80 columns by 24 rows
(until a later ResizeSession).
-/
theorem c10_rpc_always_80x24 (env : StartEnv) (m : ManagerState) (newId : Nat)
    (req : StartSessionRequest) :
    (serviceStartSession env m newId req).res ≠ Except.error GoErr.colsZero
    ∧ (serviceStartSession env m newId req).res ≠ Except.error GoErr.rowsZero
    ∧ ∀ id, (serviceStartSession env m newId req).res = Except.ok id →
        ∃ s, (serviceStartSession env m newId req).m.objs = m.objs ++ [(newId, s)]
             ∧ s.cols = 80 ∧ s.rows = 24 := by
  rw [serviceStartSession, startSession]
  rw [if_neg (by norm_num : ¬ ((80 : Int) = 0))]
  rw [if_neg (by norm_num : ¬ ((24 : Int) = 0))]
  by_cases hp : env.prepOk
  · by_cases hq : env.ptyOk
    · simp only [hp, hq, Bool.not_true, Bool.false_eq_true, if_false]
      refine ⟨by simp, by simp, ?_⟩
      intro id h
      exact ⟨_, rfl, rfl, rfl⟩
    · simp only [hp, hq, Bool.not_true, Bool.not_false, Bool.false_eq_true, if_false, if_true]
      refine ⟨by simp, by simp, ?_⟩
      intro id h
      simp at h
  · simp only [Bool.not_eq_true] at hp
    simp only [hp, Bool.not_false, if_true]
    refine ⟨by simp, by simp, ?_⟩
    intro id h
    simp at h

/-- Witness for C10: a defaulted request on an empty manager starts a
session whose stored size is 80x24. -/
theorem c10_witness :
    (serviceStartSession sampleEnv { table := [], objs := [] } 3 sampleReq).res
      = Except.ok 3
    ∧ ∃ s, (serviceStartSession sampleEnv { table := [], objs := [] } 3 sampleReq).m.objs
            = ({ table := [], objs := [] } : ManagerState).objs ++ [(3, s)]
        ∧ s.cols = 80 ∧ s.rows = 24 :=
  ⟨rfl, (c10_rpc_always_80x24 sampleEnv { table := [], objs := [] } 3 sampleReq).2.2
    3 rfl⟩

/-- Taking at most the left part of an append ignores the right part. -/
theorem takeAppendLe {α : Type} (n : Nat) (xs ys : List α) (h : n ≤ xs.length) :
    (xs ++ ys).take n = xs.take n := by
  induction n generalizing xs with
  | zero => rfl
  | succ m ih =>
    cases xs with
    | nil => exact absurd h (by simp)
    | cons x xs2 =>
      simp only [List.cons_append, List.take_succ_cons]
      rw [ih xs2 (by simpa using h)]

/-- A character distinct from every element never has a last index. -/
theorem lastIndexOfChar_none {l : Text} {c : Char} (h : ∀ x ∈ l, x ≠ c) :
    lastIndexOfChar l c = none := by
  induction l with
  | nil => rfl
  | cons a t ih =>
    have h1 : ∀ x ∈ t, x ≠ c := fun x hx => h x (List.mem_cons_of_mem a hx)
    have h2 : ¬ ((a == c) = true) := by simpa using h a (List.mem_cons_self a t)
    simp only [lastIndexOfChar, ih h1]
    rw [if_neg h2]

/-- The last ESC of `ESC :: l` is at index 0 when `l` is ESC-free. -/
theorem lastIndexOfChar_cons_self {l : Text} (h : ∀ x ∈ l, x ≠ escChar) :
    lastIndexOfChar (escChar :: l) escChar = some 0 := by
  simp only [lastIndexOfChar, lastIndexOfChar_none h]
  rw [if_pos (by simp)]

/-- A character distinct from every element is not found by `hasChar`. -/
theorem hasChar_eq_false {l : Text} {c : Char} (h : ∀ x ∈ l, x ≠ c) :
    hasChar l c = false := by
  induction l with
  | nil => rfl
  | cons a t ih =>
    have h1 : ∀ x ∈ t, x ≠ c := fun x hx => h x (List.mem_cons_of_mem a hx)
    have h2 : ¬ ((a == c) = true) := by simpa using h a (List.mem_cons_self a t)
    simp only [hasChar, ih h1, Bool.or_false]
    simpa using h2

/-- A present character is found by `hasChar`. -/
theorem hasChar_eq_true {l : Text} {c : Char} (h : c ∈ l) :
    hasChar l c = true := by
  induction l with
  | nil => cases h
  | cons a t ih =>
    rcases List.mem_cons.mp h with h1 | h1
    · subst h1; simp [hasChar]
    · simp [hasChar, ih h1]

/-- A pattern starting with ESC does not occur in an ESC-free text. -/
theorem indexOfAux_esc_none {l : Text} (q : Text) (h : ∀ x ∈ l, x ≠ escChar) :
    indexOfAux l (escChar :: q) = none := by
  induction l with
  | nil => rfl
  | cons a t ih =>
    have h1 : ∀ x ∈ t, x ≠ escChar := fun x hx => h x (List.mem_cons_of_mem a hx)
    have h2 : ¬ ((a == escChar) = true) := by
      simpa using h a (List.mem_cons_self a t)
    rw [indexOfAux]
    rw [if_neg (by simp only [startsWithL, Bool.and_eq_true]; intro hcon; exact h2 hcon.1)]
    rw [ih h1]
    rfl

/-- Elements of the OSC 7 wire prefix (everything after ESC, before the
BEL) are neither ESC nor BEL when the path is clean. -/
theorem osc7_prefix_clean {p' : Text}
    (hp : ∀ c ∈ p', c ≠ escChar ∧ c ≠ belChar) :
    ∀ x ∈ (']' :: '7' :: ';' :: '/' :: p' : Text),
      x ≠ escChar ∧ x ≠ belChar := by
  intro x hx
  simp only [List.mem_cons] at hx
  rcases hx with h | h | h | h | h
  · subst h; exact ⟨by decide, by decide⟩
  · subst h; exact ⟨by decide, by decide⟩
  · subst h; exact ⟨by decide, by decide⟩
  · subst h; exact ⟨by decide, by decide⟩
  · exact hp x h

/-- Any strict prefix of a short OSC 7 sequence is detected as a trailing
partial escape starting at its ESC, which sits at index 0. -/
theorem ftpe_take_osc7 (p' : Text) (k : Nat)
    (hp : ∀ c ∈ p', c ≠ escChar ∧ c ≠ belChar) (hlen : p'.length ≤ 15)
    (hk1 : 0 < k) (hk2 : k < (osc7Seq ('/' :: p')).length) :
    findTrailingPartialEscape ((osc7Seq ('/' :: p')).take k) = some 0 := by
  obtain ⟨j, rfl⟩ : ∃ j, k = j + 1 := ⟨k - 1, by omega⟩
  have hlen_seq : (osc7Seq ('/' :: p')).length = p'.length + 6 := by
    simp [osc7Seq]
  have hj : j ≤ p'.length + 4 := by omega
  have hseq : osc7Seq ('/' :: p')
      = escChar :: ((']' :: '7' :: ';' :: '/' :: p') ++ [belChar]) := by
    simp [osc7Seq]
  rw [hseq, List.take_succ_cons,
    takeAppendLe j (']' :: '7' :: ';' :: '/' :: p') [belChar] (by simp; omega)]
  cases j with
  | zero => rfl
  | succ j2 =>
    rw [List.take_succ_cons]
    have hmem : ∀ x ∈ ('7' :: ';' :: '/' :: p' : Text).take j2,
        x ≠ escChar ∧ x ≠ belChar := by
      intro x hx
      have hx2 := List.take_subset j2 ('7' :: ';' :: '/' :: p' : Text) hx
      exact osc7_prefix_clean hp x (List.mem_cons_of_mem ']' hx2)
    have hesc : ∀ x ∈ (']' :: ('7' :: ';' :: '/' :: p' : Text).take j2),
        x ≠ escChar := by
      intro x hx
      rcases List.mem_cons.mp hx with h | h
      · subst h; decide
      · exact (hmem x h).1
    have hlen_t : (('7' :: ';' :: '/' :: p' : Text).take j2).length ≤ p'.length + 3 := by
      rw [List.length_take]
      simp only [List.length_cons]
      omega
    simp only [findTrailingPartialEscape, lastIndexOfChar_cons_self hesc]
    rw [if_neg (by simp only [List.length_cons]; omega)]
    rw [List.drop_zero]
    rw [if_neg (by simp only [List.length_cons]; simp)]
    have hbel2 : hasChar
        (escChar :: ']' :: ('7' :: ';' :: '/' :: p' : Text).take j2) belChar
        = false := by
      apply hasChar_eq_false
      intro x hx
      rcases List.mem_cons.mp hx with h | h
      · subst h; decide
      · rcases List.mem_cons.mp h with h2 | h2
        · subst h2; decide
        · exact (hmem x h2).2
    have hio : indexOfFrom
        (escChar :: ']' :: ('7' :: ';' :: '/' :: p' : Text).take j2)
        [escChar, '\\'] 2 = none := by
      rw [indexOfFrom]
      rw [show (escChar :: ']' :: ('7' :: ';' :: '/' :: p' : Text).take j2).drop 2
          = ('7' :: ';' :: '/' :: p' : Text).take j2 from rfl]
      rw [indexOfAux_esc_none ['\\'] (fun x hx => (hmem x hx).1)]
      rfl
    rw [hbel2, hio]
    rfl

/-- The complete OSC 7 sequence is never buffered as a partial escape:
either the ESC is outside the 20-character window, or the OSC branch
sees its BEL terminator. -/
theorem ftpe_osc7_none (p' : Text)
    (hp : ∀ c ∈ p', c ≠ escChar ∧ c ≠ belChar) :
    findTrailingPartialEscape (osc7Seq ('/' :: p')) = none := by
  have hseq : osc7Seq ('/' :: p')
      = escChar :: ((']' :: '7' :: ';' :: '/' :: p') ++ [belChar]) := by
    simp [osc7Seq]
  rw [hseq]
  have hesc : ∀ x ∈ ((']' :: '7' :: ';' :: '/' :: p') ++ [belChar] : Text),
      x ≠ escChar := by
    intro x hx
    rcases List.mem_append.mp hx with h | h
    · exact (osc7_prefix_clean hp x h).1
    · rcases List.mem_cons.mp h with h2 | h2
      · subst h2; decide
      · cases h2
  simp only [findTrailingPartialEscape, lastIndexOfChar_cons_self hesc]
  by_cases h20 : 0 + 20 <
      (escChar :: ((']' :: '7' :: ';' :: '/' :: p') ++ [belChar] : Text)).length
  · rw [if_pos h20]
  · rw [if_neg h20]
    rw [List.drop_zero]
    rw [if_neg (by simp only [List.cons_append, List.length_cons]; simp)]
    have hbel : hasChar
        (escChar :: ((']' :: '7' :: ';' :: '/' :: p') ++ [belChar] : Text)) belChar
        = true := by
      apply hasChar_eq_true
      simp
    simp only [List.cons_append] at hbel ⊢
    simp [hbel]

/-- Greedy class scan over a clean list stops exactly at the appended
terminator. -/
theorem takeWhile_append_stop {pred : Char → Bool} {l : Text} {b : Char}
    (hl : ∀ x ∈ l, pred x = true) (hb : pred b = false) :
    (l ++ [b]).takeWhile pred = l := by
  induction l with
  | nil => simp [List.takeWhile, hb]
  | cons a t ih =>
    have h1 : ∀ x ∈ t, pred x = true := fun x hx => hl x (List.mem_cons_of_mem a hx)
    simp [List.cons_append, List.takeWhile_cons,
      hl a (List.mem_cons_self a t), ih h1]

/-- Percent decoding is the identity on percent-free text. -/
theorem percentDecode_clean {l : Text} (h : ∀ x ∈ l, x ≠ '%') :
    percentDecode l = some l := by
  induction l with
  | nil => rfl
  | cons a t ih =>
    have h1 : ∀ x ∈ t, x ≠ '%' := fun x hx => h x (List.mem_cons_of_mem a hx)
    rw [percentDecode.eq_def]
    simp only []
    rw [if_neg (h a (List.mem_cons_self a t)), ih h1]
    rfl

/-- The scan of the empty text returns the carried capture. -/
theorem osc7ScanF_nil (fuel : Nat) (last : Option Text) :
    osc7ScanF fuel [] last = last := by
  cases fuel with
  | zero => rfl
  | succ n => rfl

/-- The OSC 7 regex matches a whole bare-path sequence at its head and
captures exactly the path. -/
theorem osc7MatchAt_osc7Seq (p' : Text)
    (hp : ∀ c ∈ p', c ≠ escChar ∧ c ≠ belChar) :
    osc7MatchAt (osc7Seq ('/' :: p')) = some ('/' :: p', []) := by
  have hcap : osc7Capture ('/' :: (p' ++ [belChar])) = some ('/' :: p', []) := by
    have hl : ∀ x ∈ p', (fun c => c != belChar && c != escChar) x = true := by
      intro x hx
      have h1 := hp x hx
      simp [h1.1, h1.2]
    have hb : (fun c => c != belChar && c != escChar) belChar = false := by decide
    have htw : ('/' :: (p' ++ [belChar])).takeWhile
        (fun c => c != belChar && c != escChar) = '/' :: p' := by
      rw [List.takeWhile_cons, if_pos (by decide)]
      rw [takeWhile_append_stop hl hb]
    rw [osc7Capture.eq_def]
    simp only [htw]
    rw [if_neg (by simp)]
    rw [show ('/' :: (p' ++ [belChar]) : Text) = ('/' :: p') ++ [belChar] from by simp]
    rw [List.drop_left]
    simp
  have hbody : osc7Body ('/' :: (p' ++ [belChar])) = some ('/' :: p', []) := by
    rw [osc7Body.eq_def]
    rw [if_neg (by simp [startsWithL, lc])]
    exact hcap
  rw [show osc7Seq ('/' :: p')
      = escChar :: ']' :: '7' :: ';' :: ('/' :: (p' ++ [belChar])) from by
    simp [osc7Seq]]
  rw [osc7MatchAt.eq_def]
  simp only []
  rw [if_pos (by simp)]
  exact hbody

/-- One unfolding step of the OSC 7 global scan. -/
theorem osc7ScanF_succ (fuel : Nat) (s : Text) (last : Option Text) :
    osc7ScanF (fuel + 1) s last
      = match osc7MatchAt s with
        | some (cap, rest) => osc7ScanF fuel rest (some cap)
        | none =>
          match s with
          | [] => last
          | _ :: t => osc7ScanF fuel t last := rfl

/-- Extracting the cwd from a whole bare-path OSC 7 sequence yields the
decoded path. -/
theorem extractOsc7_osc7Seq (p' : Text)
    (hp : ∀ c ∈ p', c ≠ escChar ∧ c ≠ belChar)
    (hpc : ∀ c ∈ p', c ≠ '%') :
    extractOsc7Cwd (osc7Seq ('/' :: p')) = some ('/' :: p') := by
  have hlen : (osc7Seq ('/' :: p')).length = (p'.length + 5) + 1 := by
    simp [osc7Seq]
  have hdec : percentDecode ('/' :: p') = some ('/' :: p') := by
    apply percentDecode_clean
    intro x hx
    rcases List.mem_cons.mp hx with h | h
    · subst h; decide
    · exact hpc x h
  rw [extractOsc7Cwd, hlen]
  rw [osc7ScanF_succ]
  rw [osc7MatchAt_osc7Seq p' hp]
  simp [osc7ScanF_nil, hdec]

/-- Appending output to the active block does not touch the tracked cwd. -/
theorem appendToBlock_cwd (st : ParserState) (content : Text) :
    (appendToBlock st content).cwd = st.cwd := by
  rw [appendToBlock]
  split
  · rfl
  · split
    · rfl
    · rfl

/-- The marker scan loop never changes the tracked cwd (the cwd is only
updated by the pre-scan OSC 7 side channel). -/
theorem scanLoop_cwd (fuel : Nat) : ∀ (st : ParserState) (text : Text) (pos : Nat),
    (scanLoop fuel st text pos).cwd = st.cwd := by
  induction fuel with
  | zero => intro st text pos; rfl
  | succ n ih =>
    intro st text pos
    rw [scanLoop]
    split
    · split
      · -- inside a block: END search
        cases hexec : execEnd (List.drop pos text) with
        | none =>
          simp only [hexec]
          rw [appendToBlock_cwd]
          split
          · rfl
          · rfl
        | some r =>
          obtain ⟨endOff, r2⟩ := r
          obtain ⟨len, code⟩ := r2
          simp only [hexec]
          rw [ih]
          split
          · exact appendToBlock_cwd st _
          · exact appendToBlock_cwd st _
      · -- outside a block: START search
        cases hidx : indexOfFrom text markerStart pos with
        | none =>
          simp only [hidx]
          split
          · rfl
          · rfl
        | some startIdx =>
          simp only [hidx]
          rw [ih]
          split
          · rfl
          · rfl
    · rfl

/-- A chunk that is recognised whole as a trailing partial escape is
buffered in its entirety: the parser state is unchanged apart from the
raw buffer. -/
theorem processChunk_initState_buffered (chunk : Text)
    (h : findTrailingPartialEscape chunk = some 0) :
    processChunk (initState (lc "~")) chunk
      = { initState (lc "~") with rawBuffer := chunk } := by
  simp only [processChunk, prepChunk, initState, List.nil_append, h]
  rfl

/-- When the reassembled raw text ends cleanly and carries an OSC 7
broadcast with a non-empty capture, the chunk's processing records that
capture as the tracked cwd. -/
theorem processChunk_cwd_of_extract (st : ParserState) (chunk : Text) (c : Text)
    (hsplit : findTrailingPartialEscape (st.rawBuffer ++ chunk) = none)
    (hex : extractOsc7Cwd (st.rawBuffer ++ chunk) = some c)
    (hc : c.isEmpty = false) :
    (processChunk st chunk).cwd = c := by
  have hloop : (processChunk st chunk).cwd = (prepChunk st chunk).1.cwd :=
    scanLoop_cwd ((prepChunk st chunk).2.length + 1) (prepChunk st chunk).1
      (prepChunk st chunk).2 0
  rw [hloop]
  simp only [prepChunk, hsplit, hex]
  by_cases hcc : c = st.cwd
  · simp [hcc]
  · simp [hc, hcc]

/-- Feeding two chunks is processing them in order. -/
theorem feed_two (st : ParserState) (a b : Text) :
    feed st [a, b] = processChunk (processChunk st a) b := rfl

/--
C8 amended: split-across-chunks reassembly of an OSC-7 cwd broadcast is
correct only for BEL-terminated sequences that fit the 20-character ESC
look-back window of `findTrailingPartialEscape`.  For every clean
absolute bare path of at most 16 bytes and every split offset, the
parser records nothing from the incomplete prefix and records the
decoded path exactly once when the BEL arrives (first two conjuncts,
fully general).  Outside that scope the sequence is lost: the
counterexample theorem shows it for a sequence longer than the window,
and the last two conjuncts here show it for a short ST-terminated
sequence — fed whole, `ESC ]7;/tmp ESC \` records `/tmp`, but split
between the two bytes of the ST terminator the incomplete prefix is
flushed (the last ESC alone is buffered) and the cwd is never recorded.
-/
theorem c8_amended_short_osc7_split (p' : Text) (k : Nat)
    (hp : ∀ c ∈ p', c ≠ escChar ∧ c ≠ belChar ∧ c ≠ '%')
    (hlen : p'.length ≤ 15) (hk1 : 0 < k)
    (hk2 : k < (osc7Seq ('/' :: p')).length) :
    ((processChunk (initState (lc "~")) ((osc7Seq ('/' :: p')).take k)).cwd = lc "~"
     ∧ (feed (initState (lc "~"))
         [(osc7Seq ('/' :: p')).take k, (osc7Seq ('/' :: p')).drop k]).cwd
       = '/' :: p')
    ∧ ((feed (initState (lc "~"))
          [escChar :: (lc "]7;/tmp" ++ [escChar, '\\'])]).cwd = lc "/tmp"
       ∧ (feed (initState (lc "~"))
           [(escChar :: (lc "]7;/tmp" ++ [escChar, '\\'])).take 9,
            (escChar :: (lc "]7;/tmp" ++ [escChar, '\\'])).drop 9]).cwd
         = lc "~") := by
  refine ⟨?_, rfl, rfl⟩
  have hp1 : ∀ c ∈ p', c ≠ escChar ∧ c ≠ belChar :=
    fun c hc => ⟨(hp c hc).1, (hp c hc).2.1⟩
  have hp2 : ∀ c ∈ p', c ≠ '%' := fun c hc => (hp c hc).2.2
  have hbufed := processChunk_initState_buffered _
    (ftpe_take_osc7 p' k hp1 hlen hk1 hk2)
  constructor
  · rw [hbufed]
    rfl
  · rw [feed_two, hbufed]
    apply processChunk_cwd_of_extract
    · show findTrailingPartialEscape
          ((osc7Seq ('/' :: p')).take k ++ (osc7Seq ('/' :: p')).drop k) = none
      rw [List.take_append_drop]
      exact ftpe_osc7_none p' hp1
    · show extractOsc7Cwd
          ((osc7Seq ('/' :: p')).take k ++ (osc7Seq ('/' :: p')).drop k)
        = some ('/' :: p')
      rw [List.take_append_drop]
      exact extractOsc7_osc7Seq p' hp1 hp2
    · rfl

/-- Witness for C8: the BEL-terminated sequence for `/tmp` split after
3 bytes records nothing from the prefix and records `/tmp` once the BEL
arrives, while the ST-terminated variant is recorded whole but lost when
split inside its terminator. -/
theorem c8_witness :
    (0 < 3 ∧ 3 < (osc7Seq ('/' :: lc "tmp")).length)
    ∧ (((processChunk (initState (lc "~"))
           ((osc7Seq ('/' :: lc "tmp")).take 3)).cwd = lc "~"
        ∧ (feed (initState (lc "~"))
             [(osc7Seq ('/' :: lc "tmp")).take 3,
              (osc7Seq ('/' :: lc "tmp")).drop 3]).cwd = '/' :: lc "tmp")
       ∧ ((feed (initState (lc "~"))
             [escChar :: (lc "]7;/tmp" ++ [escChar, '\\'])]).cwd = lc "/tmp"
          ∧ (feed (initState (lc "~"))
              [(escChar :: (lc "]7;/tmp" ++ [escChar, '\\'])).take 9,
               (escChar :: (lc "]7;/tmp" ++ [escChar, '\\'])).drop 9]).cwd
            = lc "~")) :=
  ⟨⟨by decide, by decide⟩,
   c8_amended_short_osc7_split (lc "tmp") 3 (by decide) (by decide)
     (by decide) (by decide)⟩
